import Mathlib

/-!
Shallow embedding of the Twitter customer-support ingestion pipeline
(`data_validator.py`, `data_normalizer.py`, `conversation_threader.py`,
`database_manager.py`, `main_pipeline.py`) and proofs about the frozen
specification claims.

Conventions of the embedding:
* Python strings are Lean `String`s; quality scores are exact rationals `ℚ`
  (Python uses binary floats; every constant that appears — 1.0, 0.1, 0.2,
  0.3, 0.8 — combines in the claims only through comparisons whose outcome
  is the same for floats and exact rationals at the inputs considered).
  Subtraction, multiplication and division of scores are written with the
  executable wrappers `qSub`, `qMul` and `Rat.divInt`; the lemmas
  `qSub_eq_sub` and `qMul_eq_mul` prove them equal to the ordinary
  operations.
* `pandas.to_datetime` and `Timestamp.isoformat` are external library
  functions; they are passed in as parameters `parse : String → Option Int`
  (`none` models `NaT`/a parse failure, `Int` is a parsed instant in epoch
  seconds) and `iso : Int → String`.  `hashlib.md5(...).hexdigest()` is
  likewise passed in as `md5 : String → String`.
* A fallible Python construct (`try/except`, `pd.notna`) becomes `Option`.
* Dictionaries keyed by strings become association lists where the most
  recent binding is consed to the front (`List.lookup` returns the first
  match, which models Python dict overwriting semantics).
* Python string methods (`lower`, `upper`, `strip`, `split`,
  `startswith`, `in`) are modelled by character-list functions below; they
  implement the ASCII behaviour, which covers every string the claims and
  the pipeline's own constants exercise.
-/

/-- Exact rational subtraction computed on numerators/denominators
(`Rat.sub` is `@[irreducible]`; this form evaluates). -/
def qSub (a b : ℚ) : ℚ :=
  Rat.divInt (a.num * (b.den : ℤ) - b.num * (a.den : ℤ)) ((a.den : ℤ) * (b.den : ℤ))

/-- Exact rational multiplication computed on numerators/denominators. -/
def qMul (a b : ℚ) : ℚ :=
  Rat.divInt (a.num * b.num) ((a.den : ℤ) * (b.den : ℤ))

/-- `qSub` is ordinary rational subtraction. -/
theorem qSub_eq_sub (a b : ℚ) : qSub a b = a - b := by
  rw [qSub, ← Rat.divInt_sub_divInt _ _
        (by exact_mod_cast a.den_nz) (by exact_mod_cast b.den_nz),
      Rat.num_divInt_den, Rat.num_divInt_den]

/-- `qMul` is ordinary rational multiplication. -/
theorem qMul_eq_mul (a b : ℚ) : qMul a b = a * b := by
  rw [qMul, ← Rat.divInt_mul_divInt' , Rat.num_divInt_den, Rat.num_divInt_den]

/-- Python `\s` (ASCII part) as used by the `re` module and `str.strip`/
`str.split`: space, tab, newline, carriage return, vertical tab, form
feed. -/
def isPySpace (c : Char) : Bool :=
  c = ' ' || c = '\t' || c = '\n' || c = '\r' || c = '\x0b' || c = '\x0c'

/-- ASCII lowercasing of one character (Python `str.lower`). -/
def pyLowerChar (c : Char) : Char :=
  if 'A' ≤ c ∧ c ≤ 'Z' then Char.ofNat (c.toNat + 32) else c

/-- ASCII lowercasing (Python `str.lower`). -/
def strLower (s : String) : String := String.mk (s.toList.map pyLowerChar)

/-- ASCII uppercasing of one character (Python `str.upper`). -/
def pyUpperChar (c : Char) : Char :=
  if 'a' ≤ c ∧ c ≤ 'z' then Char.ofNat (c.toNat - 32) else c

/-- ASCII uppercasing (Python `str.upper`). -/
def strUpper (s : String) : String := String.mk (s.toList.map pyUpperChar)

/-- Python `str.strip()`: remove whitespace at both ends. -/
def strTrim (s : String) : String :=
  String.mk (((s.toList.dropWhile isPySpace).reverse.dropWhile isPySpace).reverse)

/-- Python `str.startswith`. -/
def strStartsWith (s pre : String) : Bool :=
  List.isPrefixOf pre.toList s.toList

/-- Worker for `pySplit`: `cur` is the current token, reversed. -/
def pySplitGo : List Char → List Char → List String
  | [], cur => if cur.isEmpty then [] else [String.mk cur.reverse]
  | c :: cs, cur =>
    if isPySpace c then
      if cur.isEmpty then pySplitGo cs []
      else String.mk cur.reverse :: pySplitGo cs []
    else pySplitGo cs (c :: cur)

/-- Python `str.split()` with no argument: split on whitespace runs,
dropping empty tokens. -/
def pySplit (s : String) : List String := pySplitGo s.toList []

/-- Whether `pat` occurs as a contiguous sublist of `l`. -/
def charsInfixOf (pat : List Char) : List Char → Bool
  | [] => pat.isEmpty
  | c :: cs => List.isPrefixOf pat (c :: cs) || charsInfixOf pat cs

/-- Substring containment, Python `pat in s` on strings. -/
def strContains (s pat : String) : Bool :=
  charsInfixOf pat.toList s.toList

/-- Python `int(s)` success on the strings this pipeline sees: an optional
sign followed by one or more digits (the `int()` tolerance for surrounding
whitespace and underscore separators is not exercised by the data model and
is not modelled). -/
def pyIntParses (s : String) : Bool :=
  match s.toList with
  | [] => false
  | '-' :: rest => !rest.isEmpty && rest.all Char.isDigit
  | '+' :: rest => !rest.isEmpty && rest.all Char.isDigit
  | l => l.all Char.isDigit

/-- Detects a run of at least six equal consecutive characters, the
character not being a newline: Python `re.search(r'(.)\1{5,}', text)`
(`.` does not match `\n`). `c` is the character of the current run and `n`
its length so far. -/
def repeatRunGo (c : Char) (n : Nat) : List Char → Bool
  | [] => 6 ≤ n && c ≠ '\n'
  | d :: ds =>
    if d = c then repeatRunGo c (n + 1) ds
    else (6 ≤ n && c ≠ '\n') || repeatRunGo d 1 ds

/-- Whether the text contains a run of ≥ 6 identical (non-newline)
characters — the "excessive character repetition" spam indicator. -/
def hasRepeatRun : List Char → Bool
  | [] => false
  | c :: cs => repeatRunGo c 1 cs

/-- If `cs` begins with `http://` or `https://`, the remainder after the
scheme, else `none` (regex prefix `http[s]?://`). -/
def urlAfterScheme (cs : List Char) : Option (List Char) :=
  if List.isPrefixOf ("http://".toList) cs then some (cs.drop 7)
  else if List.isPrefixOf ("https://".toList) cs then some (cs.drop 8)
  else none

/-- If a full URL match `http[s]?://\S+` starts at the head of `cs`,
the remainder of the list after the (greedy) match, else `none`. -/
def urlConsume (cs : List Char) : Option (List Char) :=
  match urlAfterScheme cs with
  | none => none
  | some rest =>
    match rest with
    | [] => none
    | d :: _ =>
      if isPySpace d then none
      else some (rest.dropWhile (fun c => !(isPySpace c)))

/-- Fuel-driven scan counting non-overlapping matches of
`http[s]?://\S+`, left to right, as `re.findall` does.  The fuel is the
list length; every step consumes at least one character. -/
def countUrlsGo : Nat → List Char → Nat
  | 0, _ => 0
  | _, [] => 0
  | fuel + 1, c :: cs =>
    match urlConsume (c :: cs) with
    | some rest => 1 + countUrlsGo fuel rest
    | none => countUrlsGo fuel cs

/-- Number of `re.findall(r'http[s]?://\S+', text)` matches. -/
def countUrls (s : String) : Nat :=
  countUrlsGo s.toList.length s.toList

/-- Validator configuration (`DataQualityValidator.__init__` defaults,
which coincide with `IngestionConfig`). -/
structure ValidatorConfig where
  min_text_length : Nat := 5
  max_text_length : Nat := 1000
  quality_threshold : ℚ := Rat.divInt 8 10
deriving DecidableEq

/-- The normalized record dictionary flowing through
`process_batch`: the output of `TwitterDataNormalizer.normalize_record`
plus the conversation-threading fields and the dedup/quality fields added
in `process_batch`.  (The extracted `mentions`/`hashtags`/`urls` lists and
the `language` tag are also produced by the normalizer but are read by no
code path any claim touches, so they are not carried.) -/
structure NRecord where
  tweet_id : String
  author_id : String
  text : String
  created_at : String
  in_response_to_status_id : Option String
  conversation_id : String := ""
  thread_position : Nat := 0
  is_customer_message : Bool := true
  conversation_type : String := "unknown"
  record_hash : String := ""
  data_quality_score : ℚ := 1
  quality_issues : List String := []
deriving DecidableEq, Inhabited

/-- Result triple of `DataQualityValidator.validate_record`. -/
structure Verdict where
  is_valid : Bool
  issues : List String
  score : ℚ
deriving DecidableEq

/-- `DataQualityValidator._is_valid_tweet_id`: numeric string of length
at least 10. -/
def is_valid_tweet_id (tweet_id : String) : Bool :=
  !(tweet_id = "") && pyIntParses tweet_id && decide (10 ≤ tweet_id.length)

/-- `DataQualityValidator._is_valid_author_id`: nonempty, alphanumeric or
underscore only (regex `^[a-zA-Z0-9_]+$`). -/
def is_valid_author_id (author_id : String) : Bool :=
  !(author_id = "") && author_id.toList.all (fun c => c.isAlphanum || c = '_')

/-- `DataQualityValidator._is_valid_timestamp`: nonempty and parseable by
`pd.to_datetime` (the `parse` oracle). -/
def is_valid_timestamp (parse : String → Option Int) (timestamp : String) : Bool :=
  !(timestamp = "") && (parse timestamp).isSome

/-- `DataQualityValidator._validate_text_quality`. Returns the text-quality
issue list and the text score (started at 1.0, additively penalized,
floored at 0). -/
def validate_text_quality (cfg : ValidatorConfig) (text : String) : List String × ℚ :=
  if text = "" then (["Empty text content"], 0)
  else
    let issues₁ : List String × ℚ :=
      if text.length < cfg.min_text_length then
        (["Text too short (< " ++ toString cfg.min_text_length ++ " chars)"],
         qSub 1 (Rat.divInt 3 10))
      else ([], 1)
    let issues₂ : List String × ℚ :=
      if cfg.max_text_length < text.length then
        (issues₁.1 ++ ["Text too long (> " ++ toString cfg.max_text_length ++ " chars)"],
         qSub issues₁.2 (Rat.divInt 2 10))
      else issues₁
    let issues₃ : List String × ℚ :=
      if strTrim text = strUpper text ∧ 20 < text.length then
        (issues₂.1 ++ ["Text appears to be all caps (spam indicator)"],
         qSub issues₂.2 (Rat.divInt 2 10))
      else issues₂
    let specials : Nat := (text.toList.filter (fun c => !(c.isAlphanum || isPySpace c))).length
    let issues₄ : List String × ℚ :=
      if Rat.divInt 1 2 < Rat.divInt (specials : ℤ) (text.length : ℤ) then
        (issues₃.1 ++ ["Excessive special characters"], qSub issues₃.2 (Rat.divInt 3 10))
      else issues₃
    let issues₅ : List String × ℚ :=
      if hasRepeatRun text.toList then
        (issues₄.1 ++ ["Excessive character repetition"], qSub issues₄.2 (Rat.divInt 2 10))
      else issues₄
    let issues₆ : List String × ℚ :=
      if 3 < countUrls text then
        (issues₅.1 ++ ["Multiple URLs detected"], qSub issues₅.2 (Rat.divInt 1 10))
      else issues₅
    (issues₆.1, max 0 issues₆.2)

/-- `DataQualityValidator._validate_cross_fields`. -/
def validate_cross_fields (r : NRecord) : List String × ℚ :=
  let irtTruthy : Bool :=
    match r.in_response_to_status_id with
    | some s => !(s = "")
    | none => false
  let step₁ : List String × ℚ :=
    if irtTruthy ∧ ¬ (strStartsWith r.text "@" = true) then
      (["Reply tweet doesn't start with mention"], qSub 1 (Rat.divInt 1 10))
    else ([], 1)
  if r.in_response_to_status_id = some r.tweet_id then
    (step₁.1 ++ ["Tweet replies to itself"], qSub step₁.2 (Rat.divInt 3 10))
  else step₁

/-- `DataQualityValidator.validate_record`: validates one normalized
record, returning `(is_valid, issues, quality_score)` exactly in the
source's order of checks. -/
def validate_record (parse : String → Option Int) (cfg : ValidatorConfig)
    (r : NRecord) : Verdict :=
  let missing : List String :=
    (if r.tweet_id = "" then ["Missing required field: tweet_id"] else []) ++
    (if r.author_id = "" then ["Missing required field: author_id"] else []) ++
    (if r.text = "" then ["Missing required field: text"] else []) ++
    (if r.created_at = "" then ["Missing required field: created_at"] else [])
  let score₀ : ℚ := qSub 1 (qMul (Rat.divInt 3 10) (missing.length : ℚ))
  let step₁ : List String × ℚ :=
    if ¬ (r.tweet_id = "") ∧ is_valid_tweet_id r.tweet_id = false then
      (missing ++ ["Invalid tweet ID format"], qSub score₀ (Rat.divInt 2 10))
    else (missing, score₀)
  let textRes := validate_text_quality cfg r.text
  let step₂ : List String × ℚ := (step₁.1 ++ textRes.1, min step₁.2 textRes.2)
  let step₃ : List String × ℚ :=
    if ¬ (r.created_at = "") ∧ is_valid_timestamp parse r.created_at = false then
      (step₂.1 ++ ["Invalid timestamp format"], qSub step₂.2 (Rat.divInt 1 10))
    else step₂
  let step₄ : List String × ℚ :=
    if ¬ (r.author_id = "") ∧ is_valid_author_id r.author_id = false then
      (step₃.1 ++ ["Invalid author ID format"], qSub step₃.2 (Rat.divInt 1 10))
    else step₃
  let crossRes := validate_cross_fields r
  let issues : List String := step₄.1 ++ crossRes.1
  let score : ℚ := min step₄.2 crossRes.2
  let clamped : ℚ := max 0 (min 1 score)
  ⟨decide (cfg.quality_threshold ≤ clamped) && issues.isEmpty, issues, clamped⟩

/-- C1: for every record and configuration, `validate_record` declares the
record valid exactly when the (returned, clamped) quality score reaches the
configured threshold AND the returned issue list is empty; in particular a
record with at least one finding is never valid, whatever its score. -/
theorem validate_record_valid_iff (parse : String → Option Int)
    (cfg : ValidatorConfig) (r : NRecord) :
    (validate_record parse cfg r).is_valid = true ↔
      (cfg.quality_threshold ≤ (validate_record parse cfg r).score ∧
       (validate_record parse cfg r).issues = []) := by
  simp only [validate_record, Bool.and_eq_true, decide_eq_true_eq,
    List.isEmpty_iff]

/-- Brand-account author substring patterns hardcoded in
`ConversationThreader.is_brand_account`. -/
def brand_patterns : List String :=
  ["support", "help", "service", "care", "assist", "team"]

/-- Canned support phrases hardcoded in
`ConversationThreader.is_brand_account`. -/
def support_phrases : List String :=
  ["thank you for contacting",
   "we apologize",
   "please dm us",
   "sorry for the inconvenience",
   "we can help",
   "please reach out",
   "our team will",
   "thanks for reaching out"]

/-- `ConversationThreader.load_brand_accounts`: extends the mutable
`brand_accounts` set (modelled as a list whose membership is its set of
elements) with the caller-supplied list, then with the hardcoded common
patterns.  `none`/`[]` model the Python default `None` and other falsy
values of `brand_account_list`. -/
def load_brand_accounts (brand_account_list : Option (List String))
    (brand_accounts : List String) : List String :=
  (match brand_account_list with
   | some l => if l.isEmpty then brand_accounts else brand_accounts ++ l
   | none => brand_accounts) ++
  ["support", "help", "service", "care", "assist"]

/-- `ConversationThreader.is_brand_account`: heuristic brand/support
detection.  The `brand_accounts` parameter is the object state
(`self.brand_accounts`); the source never reads it here — it tests the
lowercased author id against the hardcoded `brand_patterns` substrings and
the lowercased text against the hardcoded `support_phrases`. -/
def is_brand_account (brand_accounts : List String)
    (author_id : String) (text : String) : Bool :=
  if author_id = "" then false
  else if brand_patterns.any (fun p => strContains (strLower author_id) p) then true
  else if !(text = "") &&
          support_phrases.any (fun p => strContains (strLower text) p) then true
  else false

/-- A raw row of the batch dataframe handed to
`ConversationThreader.thread_conversations`: the CSV fields the threader
reads.  `in_reply_to` is `none` when `in_response_to_status_id` is NaN
(`pd.notna` fails). -/
structure TRow where
  tweet_id : String
  author_id : String
  text : String
  created_at : String
  in_reply_to : Option String
deriving DecidableEq, Inhabited

/-- The threading columns `thread_conversations` writes for one row. -/
structure ThreadInfo where
  conversation_id : String
  thread_position : Nat
  is_customer_message : Bool
  conversation_type : String
deriving DecidableEq, Inhabited

/-- Sort key `created_at_parsed = pd.to_datetime(created_at,
errors='coerce')`: an unparseable timestamp becomes `NaT`, which
`sort_values` places last — modelled as `⊤` in `WithTop ℤ`. -/
def tsOf (parse : String → Option Int) (r : TRow) : WithTop ℤ :=
  match parse r.created_at with
  | some t => (t : WithTop ℤ)
  | none => ⊤

/-- `df.sort_values('created_at_parsed')`: ascending by parsed timestamp,
NaT last.  (Modelled as a stable sort; ties and their order are not
exercised by any claim, all of which use pairwise distinct keys.) -/
def sortRows (parse : String → Option Int) (rows : List TRow) : List TRow :=
  List.insertionSort (fun a b => tsOf parse a ≤ tsOf parse b) rows

/-- Zero-padded conversation counter: Python `f"conv_{n:08d}"`. -/
def convName (n : Nat) : String :=
  let s := toString n
  "conv_" ++ (String.mk (List.replicate (8 - s.length) '0') ++ s)

/-- Loop state of the reply-chain pass of `thread_conversations`:
the conversation counter, the `reply_map` dict (`tweet_id →
conversation_id`, newest binding first), and the rows already assigned, in
processing order, paired with their threading columns. -/
structure P1State where
  counter : Nat
  replyMap : List (String × String)
  out : List (TRow × ThreadInfo)

/-- The `df.loc` lookup predicate of the reply branch: same conversation
id and the parent's tweet id. -/
def parentPred (convId irt : String) (e : TRow × ThreadInfo) : Bool :=
  e.2.conversation_id == convId && e.1.tweet_id == irt

/-- The else-branch of the reply-chain loop: start a new conversation
(`conversation_counter += 1`, zero-padded id), position 0, classified by
the brand heuristic, and register the row in `reply_map`. -/
def p1newThread (ba : List String) (st : P1State) (row : TRow) : P1State :=
  let convId := convName (st.counter + 1)
  let info : ThreadInfo :=
    if is_brand_account ba row.author_id row.text then
      ⟨convId, 0, false, "brand_initiated"⟩
    else ⟨convId, 0, true, "customer_inquiry"⟩
  ⟨st.counter + 1, (row.tweet_id, convId) :: st.replyMap, st.out ++ [(row, info)]⟩

/-- The then-branch of the reply-chain loop: attach to the resolved
conversation with position = parent's recorded position + 1 (first
already-assigned row with that conversation id and tweet id, defaulting to
0 when absent), classified by the brand heuristic. -/
def p1reply (ba : List String) (st : P1State) (row : TRow) (irt convId : String) :
    P1State :=
  let parentPos : Nat :=
    match st.out.find? (parentPred convId irt) with
    | some p => p.2.thread_position
    | none => 0
  let info : ThreadInfo :=
    if is_brand_account ba row.author_id row.text then
      ⟨convId, parentPos + 1, false, "brand_response"⟩
    else ⟨convId, parentPos + 1, true, "customer_followup"⟩
  ⟨st.counter, (row.tweet_id, convId) :: st.replyMap, st.out ++ [(row, info)]⟩

/-- One iteration of the reply-chain loop of `thread_conversations`
(lines 84–133 of `conversation_threader.py`): attach when `in_reply_to`
resolves in `reply_map`, else start a fresh conversation; always register
the row's tweet id in `reply_map` afterwards. -/
def p1step (ba : List String) (st : P1State) (row : TRow) : P1State :=
  match row.in_reply_to with
  | none => p1newThread ba st row
  | some irt =>
    match st.replyMap.lookup irt with
    | none => p1newThread ba st row
    | some convId => p1reply ba st row irt convId

/-- The reply-chain pass: sort by parsed timestamp, then run the loop. -/
def thread_pass1 (parse : String → Option Int) (ba : List String)
    (rows : List TRow) : List (TRow × ThreadInfo) :=
  ((sortRows parse rows).foldl (p1step ba) ⟨0, [], []⟩).out

/-- Stop words removed in `ConversationThreader._are_tweets_related`. -/
def stop_words : List String :=
  ["the", "and", "or", "but", "in", "on", "at", "to", "for", "with", "by"]

/-- Lowercased whitespace-split token set minus stop words
(Python `set(text.lower().split()) - stop_words`). -/
def tokenSet (text : String) : List String :=
  ((pySplit (strLower text)).dedup).filter (fun w => w ∉ stop_words)

/-- `ConversationThreader._are_tweets_related`: non-stopword token overlap
divided by the smaller token-set size exceeds 0.3. -/
def are_tweets_related (text1 text2 : String) : Bool :=
  if text1 = "" || text2 = "" then false
  else
    let words1 := tokenSet text1
    let words2 := tokenSet text2
    if words1.length = 0 || words2.length = 0 then false
    else
      let overlap := (words1.filter (fun w => w ∈ words2)).length
      decide (Rat.divInt 3 10 <
        Rat.divInt (overlap : ℤ) (min words1.length words2.length : ℤ))

/-- The nearby-tweet condition of `_group_mention_conversations` for a
candidate row `e` against conversation member `row`: same author, parsed
timestamps within ±24 h (`pd.Timedelta(hours=24)` = 86400 s; any NaT makes
`between` False), a different conversation, and related text. -/
def mergeCond (parse : String → Option Int) (convId : String)
    (row e : TRow × ThreadInfo) : Bool :=
  e.1.author_id == row.1.author_id &&
  (match parse e.1.created_at, parse row.1.created_at with
   | some te, some tr => decide (tr - 86400 ≤ te) && decide (te ≤ tr + 86400)
   | _, _ => false) &&
  !(e.2.conversation_id == convId) &&
  are_tweets_related row.1.text e.1.text

/-- Reassignment of every nearby related tweet into `convId` at position
`snapLen` (= `len(conv_tweets)`, the pre-pass snapshot size). -/
def mergeRow (parse : String → Option Int) (convId : String) (snapLen : Nat)
    (row : TRow × ThreadInfo) (st : List (TRow × ThreadInfo)) :
    List (TRow × ThreadInfo) :=
  st.map (fun e =>
    if mergeCond parse convId row e then
      (e.1, { e.2 with conversation_id := convId, thread_position := snapLen })
    else e)

/-- Body of the outer loop of `_group_mention_conversations` for one
conversation id: snapshot its members, then scan each member for nearby
related tweets to pull in. -/
def pass2Step (parse : String → Option Int) (st : List (TRow × ThreadInfo))
    (convId : String) : List (TRow × ThreadInfo) :=
  let convTweets := st.filter (fun e => e.2.conversation_id == convId)
  convTweets.foldl (fun st' row => mergeRow parse convId convTweets.length row st') st

/-- Unique elements in order of first appearance
(`pandas.Series.unique`). -/
def uniqueFirstGo : List String → List String → List String
  | [], _ => []
  | a :: l, seen =>
    if a ∈ seen then uniqueFirstGo l seen else a :: uniqueFirstGo l (a :: seen)

/-- Unique elements in order of first appearance. -/
def uniqueFirst (l : List String) : List String := uniqueFirstGo l []

/-- `ConversationThreader._group_mention_conversations`: the
mention/similarity merge pass, iterating the conversation ids present when
the pass starts. -/
def group_mention_conversations (parse : String → Option Int)
    (st : List (TRow × ThreadInfo)) : List (TRow × ThreadInfo) :=
  (uniqueFirst (st.map (fun e => e.2.conversation_id))).foldl (pass2Step parse) st

/-- `ConversationThreader.thread_conversations`: the reply-chain pass
followed by the mention/similarity merge pass.  The final
`_add_conversation_metadata` step only merges per-conversation aggregate
columns onto the frame and leaves `conversation_id`, `thread_position`,
`is_customer_message` and `conversation_type` untouched, so it is not
modelled. -/
def thread_conversations (parse : String → Option Int) (ba : List String)
    (rows : List TRow) : List (TRow × ThreadInfo) :=
  group_mention_conversations parse (thread_pass1 parse ba rows)

/-- `TwitterIngestionPipeline.generate_record_hash`: the md5 hex digest of
the concatenation `tweet_id + author_id + text` of the normalized record
(`f"{tweet_id}{author_id}{text}"`). -/
def generate_record_hash (md5 : String → String) (r : NRecord) : String :=
  md5 (r.tweet_id ++ r.author_id ++ r.text)

/-- C3: the record hash is a pure function of (tweet id, author id,
cleaned text): two records agreeing on those three fields hash alike, in
any run and under any digest function; the timestamp, conversation id,
thread position and all other fields never enter the hash, so re-threading
never changes a record's identity. -/
theorem generate_record_hash_depends_only_on_identity (md5 : String → String)
    (r₁ r₂ : NRecord) (hid : r₁.tweet_id = r₂.tweet_id)
    (hauthor : r₁.author_id = r₂.author_id) (htext : r₁.text = r₂.text) :
    generate_record_hash md5 r₁ = generate_record_hash md5 r₂ := by
  simp only [generate_record_hash, hid, hauthor, htext]

/-- Two records identical on (tweet id, author id, text) but differing in
timestamp, reply parent, conversation id, thread position, conversation
type and quality data. -/
def hashDemo₁ : NRecord :=
  { tweet_id := "1234567890", author_id := "alice", text := "Hello there"
    created_at := "2017-01-01T00:00:00", in_response_to_status_id := none
    conversation_id := "conv_00000001", thread_position := 0
    conversation_type := "customer_inquiry" }

/-- The re-threaded counterpart of `hashDemo₁`. -/
def hashDemo₂ : NRecord :=
  { tweet_id := "1234567890", author_id := "alice", text := "Hello there"
    created_at := "2020-05-05T12:34:56", in_response_to_status_id := some "77"
    conversation_id := "conv_00000042", thread_position := 7
    conversation_type := "customer_followup", is_customer_message := false
    record_hash := "other", data_quality_score := 0, quality_issues := ["x"] }

/-- Witness for C3 at a concrete input: the identity fields agree and the
hashes coincide although every other field differs. -/
theorem generate_record_hash_depends_only_on_identity_witness :
    hashDemo₁.tweet_id = hashDemo₂.tweet_id ∧
    hashDemo₁.author_id = hashDemo₂.author_id ∧
    hashDemo₁.text = hashDemo₂.text ∧
    generate_record_hash (fun s => s) hashDemo₁ =
      generate_record_hash (fun s => s) hashDemo₂ :=
  ⟨rfl, rfl, rfl,
   generate_record_hash_depends_only_on_identity (fun s => s) hashDemo₁ hashDemo₂
     rfl rfl rfl⟩

/-- C10: `is_brand_account` depends only on its `author_id` and `text`
arguments — the result is the same under any two brand-account states, and
loading any custom brand-account list through `load_brand_accounts` never
changes a classification, because the state set is never consulted. -/
theorem is_brand_account_ignores_loaded_accounts :
    (∀ ba₁ ba₂ author_id text,
       is_brand_account ba₁ author_id text = is_brand_account ba₂ author_id text) ∧
    (∀ lst ba author_id text,
       is_brand_account (load_brand_accounts lst ba) author_id text =
         is_brand_account ba author_id text) :=
  ⟨fun _ _ _ _ => rfl, fun _ _ _ _ => rfl⟩

/-- Parse oracle for the worked threading example of the spec (§8):
`T0` is the base instant, `T1` is one minute later. -/
def exParse : String → Option Int := fun s =>
  if s = "T0" then some 0 else if s = "T1" then some 60 else none

/-- First example record: a customer asking for help. -/
def exRow₁ : TRow := ⟨"1111111110", "cust1", "Need help login", "T0", none⟩

/-- Second example record: a support reply whose parent id `1111111111`
is absent from the batch. -/
def exRow₂ : TRow :=
  ⟨"1111111112", "support_help", "Thank you for contacting us, please DM",
   "T1", some "1111111111"⟩

/-- C8: on the two-record batch of the spec example (the state after
`load_brand_accounts`), threading gives the first record a fresh
conversation classified `customer_inquiry`, and the second record — whose
`in_reply_to` does not resolve in the reply map — its own distinct fresh
conversation classified `brand_initiated`; the brand heuristic matches on
both the author substring (`support`) and the canned phrase (`thank you
for contacting`). -/
theorem thread_example_unresolved_reply_and_brand :
    (thread_conversations exParse
        (load_brand_accounts none []) [exRow₁, exRow₂]).map
      (fun e => (e.1.tweet_id, e.2.conversation_id, e.2.thread_position,
                 e.2.conversation_type, e.2.is_customer_message)) =
      [("1111111110", "conv_00000001", 0, "customer_inquiry", true),
       ("1111111112", "conv_00000002", 0, "brand_initiated", false)] ∧
    strContains (strLower exRow₂.author_id) "support" = true ∧
    strContains (strLower exRow₂.text) "thank you for contacting" = true := by
  refine ⟨by decide, by decide, by decide⟩

/-- The text-quality pass never reads the quality threshold, so the
threshold field can be swapped freely. -/
theorem vtq_ignores_threshold (mn mx : Nat) (θ₁ θ₂ : ℚ) (text : String) :
    validate_text_quality ⟨mn, mx, θ₁⟩ text =
      validate_text_quality ⟨mn, mx, θ₂⟩ text := rfl

/-- On the text `"AAAAAAAA"` with the default length bounds, the
text-quality pass reports exactly the repeated-character finding and the
score 0.8 = 1.0 − 0.2. -/
theorem vtq_repeat_example (θ : ℚ) :
    validate_text_quality ⟨5, 1000, θ⟩ "AAAAAAAA" =
      (["Excessive character repetition"], Rat.divInt 4 5) :=
  (vtq_ignores_threshold 5 1000 θ (Rat.divInt 8 10) "AAAAAAAA").trans (by decide)

/-- C9: for every record whose text is exactly `"AAAAAAAA"` and whose
other fields are well-formed (valid tweet id, valid author id, parseable
timestamp, no reply parent), under the default length bounds and any
threshold, validation reports the repeated-character penalty as the only
finding (in particular no all-caps finding, the text not being longer than
20 characters), a score ≤ 0.8, and `is_valid = false` since the issue list
is nonempty. -/
theorem validate_record_repeated_chars_example (parse : String → Option Int)
    (θ : ℚ) (tid aid cat cid : String) (tp : Nat) (icm : Bool)
    (ctype rh : String) (dqs : ℚ) (qi : List String)
    (hid : is_valid_tweet_id tid = true)
    (hau : is_valid_author_id aid = true)
    (hts : is_valid_timestamp parse cat = true) :
    (validate_record parse ⟨5, 1000, θ⟩
        ⟨tid, aid, "AAAAAAAA", cat, none, cid, tp, icm, ctype, rh, dqs, qi⟩).issues =
      ["Excessive character repetition"] ∧
    (validate_record parse ⟨5, 1000, θ⟩
        ⟨tid, aid, "AAAAAAAA", cat, none, cid, tp, icm, ctype, rh, dqs, qi⟩).score ≤
      Rat.divInt 8 10 ∧
    (validate_record parse ⟨5, 1000, θ⟩
        ⟨tid, aid, "AAAAAAAA", cat, none, cid, tp, icm, ctype, rh, dqs, qi⟩).is_valid =
      false := by
  have htid : ¬ (tid = "") := by
    intro h
    rw [h] at hid
    exact absurd hid (by decide)
  have haid : ¬ (aid = "") := by
    intro h
    rw [h] at hau
    exact absurd hau (by decide)
  have hcat : ¬ (cat = "") := by
    intro h
    rw [h] at hts
    simp [is_valid_timestamp] at hts
  simp [validate_record, validate_cross_fields, hid, hau, hts, htid, haid,
    hcat, vtq_repeat_example θ]
  decide

/-- Witness for C9 at a concrete record. -/
theorem validate_record_repeated_chars_example_witness :
    is_valid_tweet_id "1234567890" = true ∧
    is_valid_author_id "alice" = true ∧
    is_valid_timestamp exParse "T0" = true ∧
    ((validate_record exParse ⟨5, 1000, Rat.divInt 8 10⟩
        ⟨"1234567890", "alice", "AAAAAAAA", "T0", none, "", 0, true,
         "unknown", "", 1, []⟩).issues = ["Excessive character repetition"] ∧
     (validate_record exParse ⟨5, 1000, Rat.divInt 8 10⟩
        ⟨"1234567890", "alice", "AAAAAAAA", "T0", none, "", 0, true,
         "unknown", "", 1, []⟩).score ≤ Rat.divInt 8 10 ∧
     (validate_record exParse ⟨5, 1000, Rat.divInt 8 10⟩
        ⟨"1234567890", "alice", "AAAAAAAA", "T0", none, "", 0, true,
         "unknown", "", 1, []⟩).is_valid = false) :=
  ⟨by decide, by decide, by decide,
   validate_record_repeated_chars_example exParse (Rat.divInt 8 10)
     "1234567890" "alice" "T0" "" 0 true "unknown" "" 1 []
     (by decide) (by decide) (by decide)⟩

/-- `TwitterDataNormalizer.normalize_timestamp`: parse with
`pd.to_datetime` and return the parsed instant's ISO format; when parsing
fails the function logs a warning and returns the input string unchanged —
it is total and never raises. -/
def normalize_timestamp (parse : String → Option Int) (iso : Int → String)
    (timestamp_str : String) : String :=
  match parse timestamp_str with
  | some t => iso t
  | none => timestamp_str

/-- C7 counterexample: on an unparseable timestamp string,
`normalize_timestamp` returns normally — producing the original string as
its value — instead of raising a `ParseError` as the claim demands (and it
also does not substitute the current time). -/
theorem normalize_timestamp_failure_no_raise_cex :
    (fun _ => (none : Option Int)) "not-a-timestamp" = none ∧
    normalize_timestamp (fun _ => none) (fun t => toString t) "not-a-timestamp" =
      "not-a-timestamp" :=
  ⟨rfl, rfl⟩

/-- C7 amended: for every timestamp string the parse oracle rejects,
timestamp normalization returns the original string unchanged (a normal
return, not an exception), and in particular never substitutes the current
time for the unparseable value. -/
theorem normalize_timestamp_failure_returns_input (parse : String → Option Int)
    (iso : Int → String) (timestamp_str : String)
    (hfail : parse timestamp_str = none) :
    normalize_timestamp parse iso timestamp_str = timestamp_str := by
  simp [normalize_timestamp, hfail]

/-- Witness for the amended C7 at a concrete unparseable input. -/
theorem normalize_timestamp_failure_returns_input_witness :
    exParse "2017-02-30 not a date" = none ∧
    normalize_timestamp exParse (fun t => toString t) "2017-02-30 not a date" =
      "2017-02-30 not a date" :=
  ⟨by decide,
   normalize_timestamp_failure_returns_input exParse (fun t => toString t)
     "2017-02-30 not a date" (by decide)⟩

/-- Return dictionary of `ClickHouseManager.insert_interactions_batch`. -/
structure InsertResult where
  inserted : Nat
  duplicates : Nat
  errors : Nat
deriving DecidableEq

/-- `ClickHouseManager._get_existing_hashes`: the record hashes already
present in the `interactions` table among the queried (nonempty) hashes.
Returned as a list whose membership is the query's result set. -/
def get_existing_hashes (interactions : List NRecord)
    (hashes : List String) : List String :=
  let valid := hashes.filter (fun h => !(h = ""))
  (interactions.map (fun r => r.record_hash)).filter (fun h => decide (h ∈ valid))

/-- `ClickHouseManager.insert_interactions_batch` with
`handle_duplicates=True` (the pipeline always uses the default): look up
the batch's hashes among the sink's existing hashes once, drop each row
whose hash is in that set, and insert the remaining rows.  Returns the new
`interactions` table contents and `{inserted, duplicates, errors}`. -/
def insert_interactions_batch (interactions : List NRecord)
    (records : List NRecord) : List NRecord × InsertResult :=
  if records.isEmpty then (interactions, ⟨0, 0, 0⟩)
  else
    let existing := get_existing_hashes interactions
      (records.map (fun r => r.record_hash))
    let kept := records.filter (fun r => !(decide (r.record_hash ∈ existing)))
    (interactions ++ kept, ⟨kept.length, records.length - kept.length, 0⟩)

/-- A record with hash `h1`. -/
def dupRec₁ : NRecord :=
  { tweet_id := "1234567890", author_id := "alice", text := "Hello there"
    created_at := "T0", in_response_to_status_id := none, record_hash := "h1" }

/-- A distinct record sharing `dupRec₁`'s hash. -/
def dupRec₂ : NRecord :=
  { tweet_id := "1234567892", author_id := "bob99", text := "Other text"
    created_at := "T1", in_response_to_status_id := none, record_hash := "h1" }

/-- C6 counterexample: a batch holding two records with the same nonempty
hash, neither present in the (empty) sink, inserts BOTH — there is no
in-memory seen-set, so intra-batch duplicates are not deduplicated. -/
theorem insert_batch_intra_batch_dup_both_inserted_cex :
    dupRec₁.record_hash = dupRec₂.record_hash ∧
    ¬ dupRec₁.record_hash = "" ∧
    (insert_interactions_batch [] [dupRec₁, dupRec₂]).2.inserted = 2 ∧
    (insert_interactions_batch [] [dupRec₁, dupRec₂]).1 = [dupRec₁, dupRec₂] := by
  refine ⟨by decide, by decide, by decide, by decide⟩

/-- C6 amended: deduplication in `insert_interactions_batch` is only
against the hashes already existing in the sink, computed once before the
batch is written: the rows inserted are exactly the batch rows whose
(nonempty) hash is absent from the sink's pre-batch contents — a predicate
independent of the other rows of the batch, so several same-hash rows in
one batch are all inserted when that hash is new. -/
theorem insert_batch_cross_run_dedup_only (interactions records : List NRecord)
    (hne : ¬ records = []) :
    (insert_interactions_batch interactions records).1 =
      interactions ++ records.filter (fun r =>
        !(!(r.record_hash = "") &&
          decide (r.record_hash ∈ interactions.map (fun x => x.record_hash)))) ∧
    (insert_interactions_batch interactions records).2.inserted =
      (records.filter (fun r =>
        !(!(r.record_hash = "") &&
          decide (r.record_hash ∈ interactions.map (fun x => x.record_hash))))).length := by
  have hfe : records.filter (fun r =>
      !(decide (r.record_hash ∈ get_existing_hashes interactions
          (records.map (fun x => x.record_hash))))) =
      records.filter (fun r =>
        !(!(r.record_hash = "") &&
          decide (r.record_hash ∈ interactions.map (fun x => x.record_hash)))) := by
    apply List.filter_congr
    intro r hr
    have hmem : r.record_hash ∈ records.map (fun x => x.record_hash) :=
      List.mem_map.mpr ⟨r, hr, rfl⟩
    have hiff : (r.record_hash ∈ get_existing_hashes interactions
        (records.map (fun x => x.record_hash))) ↔
        (¬ r.record_hash = "" ∧
         r.record_hash ∈ interactions.map (fun x => x.record_hash)) := by
      unfold get_existing_hashes
      constructor
      · intro hin
        rw [List.mem_filter] at hin
        obtain ⟨hmap, hval⟩ := hin
        rw [decide_eq_true_eq, List.mem_filter] at hval
        exact ⟨by simpa using hval.2, hmap⟩
      · rintro ⟨hne0, hmap⟩
        rw [List.mem_filter]
        refine ⟨hmap, ?_⟩
        rw [decide_eq_true_eq, List.mem_filter]
        exact ⟨hmem, by simpa using hne0⟩
    simp only [hiff, Bool.decide_and, decide_not]
  constructor <;>
    simp only [insert_interactions_batch, List.isEmpty_eq_true, hne, if_false, hfe]

/-- Witness for the amended C6 at a concrete batch. -/
theorem insert_batch_cross_run_dedup_only_witness :
    ¬ ([dupRec₁, dupRec₂] : List NRecord) = [] ∧
    (insert_interactions_batch [] [dupRec₁, dupRec₂]).1 =
      [] ++ ([dupRec₁, dupRec₂] : List NRecord).filter (fun r =>
        !(!(r.record_hash = "") &&
          decide (r.record_hash ∈ ([] : List NRecord).map (fun x => x.record_hash)))) :=
  ⟨by decide,
   (insert_batch_cross_run_dedup_only [] [dupRec₁, dupRec₂] (by decide)).1⟩

/-- A control character removed by `clean_text`
(regex `[\x00-\x1f\x7f-\x9f]`). -/
def isCtl (c : Char) : Bool :=
  c.toNat ≤ 0x1f || (0x7f ≤ c.toNat && c.toNat ≤ 0x9f)

/-- Collapse runs of spaces to a single space (the run part of
`re.sub(r'\s+', ' ', text)` after whitespace has been mapped to spaces). -/
def squeezeSpaces : List Char → List Char
  | [] => []
  | [c] => [c]
  | a :: b :: t =>
    if a = ' ' && b = ' ' then squeezeSpaces (b :: t)
    else a :: squeezeSpaces (b :: t)

/-- `TwitterDataNormalizer.clean_text`: collapse whitespace runs to single
spaces and strip the ends (`re.sub(r'\s+', ' ', text).strip()`), then drop
control characters (the intermediate `encode('utf-8',
errors='ignore').decode('utf-8')` is the identity on well-formed
strings). -/
def clean_text (text : String) : String :=
  let collapsed := strTrim (String.mk
    (squeezeSpaces (text.toList.map (fun c => if isPySpace c then ' ' else c))))
  String.mk (collapsed.toList.filter (fun c => !(isCtl c)))

/-- `TwitterDataNormalizer.normalize_record` on the fields any claim
reads: identity on the id strings, cleaned text, normalized timestamp, and
the reply parent (`str(...)` when present, `None` when NaN).  The
extracted `language`/`mentions`/`hashtags`/`urls` outputs are not carried
(see `NRecord`). -/
def normalize_record (parse : String → Option Int) (iso : Int → String)
    (row : TRow) : NRecord :=
  { tweet_id := row.tweet_id
    author_id := row.author_id
    text := clean_text row.text
    created_at := normalize_timestamp parse iso row.created_at
    in_response_to_status_id := row.in_reply_to }

/-- The per-row body of `TwitterIngestionPipeline.process_batch` (lines
147–191): normalize, attach the threading columns, hash, validate, attach
score and issues, and append to the accumulated valid records only when
`is_valid`. -/
def pbStep (parse : String → Option Int) (iso : Int → String)
    (md5 : String → String) (cfg : ValidatorConfig)
    (acc : List NRecord) (e : TRow × ThreadInfo) : List NRecord :=
  let n₀ := normalize_record parse iso e.1
  let n₁ := { n₀ with conversation_id := e.2.conversation_id
                      thread_position := e.2.thread_position
                      is_customer_message := e.2.is_customer_message
                      conversation_type := e.2.conversation_type }
  let n₂ := { n₁ with record_hash := generate_record_hash md5 n₁ }
  let v := validate_record parse cfg n₂
  let n₃ := { n₂ with data_quality_score := v.score, quality_issues := v.issues }
  if v.is_valid then acc ++ [n₃] else acc

/-- `TwitterIngestionPipeline.process_batch`: thread the batch, then run
the per-row pipeline, returning the list of valid records handed to the
sink. -/
def process_batch (parse : String → Option Int) (iso : Int → String)
    (md5 : String → String) (cfg : ValidatorConfig) (ba : List String)
    (rows : List TRow) : List NRecord :=
  (thread_conversations parse ba rows).foldl (pbStep parse iso md5 cfg) []

/-- A record the validator accepts carries a score reaching the threshold
and an empty issue list (the conjunction `is_valid` is built from). -/
theorem isValid_split (parse : String → Option Int) (cfg : ValidatorConfig)
    (r : NRecord) (h : (validate_record parse cfg r).is_valid = true) :
    cfg.quality_threshold ≤ (validate_record parse cfg r).score ∧
      (validate_record parse cfg r).issues = [] := by
  simp only [validate_record, Bool.and_eq_true, decide_eq_true_eq,
    List.isEmpty_iff] at h ⊢
  exact h

/-- Every record accumulated by the `process_batch` fold reaches the
threshold and carries no issues. -/
theorem pbFold_only_valid (parse : String → Option Int) (iso : Int → String)
    (md5 : String → String) (cfg : ValidatorConfig) :
    ∀ (entries : List (TRow × ThreadInfo)) (acc : List NRecord),
      (∀ r ∈ acc, cfg.quality_threshold ≤ r.data_quality_score ∧
        r.quality_issues = []) →
      ∀ r ∈ entries.foldl (pbStep parse iso md5 cfg) acc,
        cfg.quality_threshold ≤ r.data_quality_score ∧ r.quality_issues = [] := by
  intro entries
  induction entries with
  | nil => intro acc hacc r hr; exact hacc r hr
  | cons e es ih =>
    intro acc hacc r hr
    refine ih (pbStep parse iso md5 cfg acc e) ?_ r hr
    intro x hx
    simp only [pbStep] at hx
    by_cases hv : (validate_record parse cfg
        { normalize_record parse iso e.1 with
          conversation_id := e.2.conversation_id
          thread_position := e.2.thread_position
          is_customer_message := e.2.is_customer_message
          conversation_type := e.2.conversation_type
          record_hash := generate_record_hash md5
            { normalize_record parse iso e.1 with
              conversation_id := e.2.conversation_id
              thread_position := e.2.thread_position
              is_customer_message := e.2.is_customer_message
              conversation_type := e.2.conversation_type } }).is_valid = true
    · rw [if_pos hv] at hx
      rcases List.mem_append.mp hx with hx' | hx'
      · exact hacc x hx'
      · have hx'' := List.mem_singleton.mp hx'
        subst hx''
        exact isValid_split _ _ _ hv
    · rw [if_neg hv] at hx
      exact hacc x hx

/-- C5: for every batch, every parse/format/digest oracle, every brand
state and every configuration, no record whose attached quality score is
below the configured threshold, or whose attached issue list is nonempty,
is ever included in the list of valid records `process_batch` hands to the
sink's batch insert. -/
theorem process_batch_only_valid_reaches_sink (parse : String → Option Int)
    (iso : Int → String) (md5 : String → String) (cfg : ValidatorConfig)
    (ba : List String) (rows : List TRow) (r : NRecord)
    (hr : r ∈ process_batch parse iso md5 cfg ba rows) :
    cfg.quality_threshold ≤ r.data_quality_score ∧ r.quality_issues = [] :=
  pbFold_only_valid parse iso md5 cfg (thread_conversations parse ba rows) []
    (by intro x hx; exact absurd hx (List.not_mem_nil x)) r hr

/-- The single record produced by `process_batch` on the one-row witness
batch. -/
def pbWitnessRec : NRecord :=
  (process_batch exParse (fun _ => "T0") (fun s => s) {} [] [exRow₁]).headI

/-- Witness for C5 at a concrete batch: the produced record is in the
output and satisfies the guarantee. -/
theorem process_batch_only_valid_reaches_sink_witness :
    pbWitnessRec ∈ process_batch exParse (fun _ => "T0") (fun s => s) {} [] [exRow₁] ∧
    ({} : ValidatorConfig).quality_threshold ≤ pbWitnessRec.data_quality_score ∧
    pbWitnessRec.quality_issues = [] :=
  ⟨by decide,
   process_batch_only_valid_reaches_sink exParse (fun _ => "T0") (fun s => s)
     {} [] [exRow₁] pbWitnessRec (by decide)⟩

/-- A fold whose step fixes the accumulator leaves it unchanged. -/
theorem foldl_fixed {α β : Type} (f : β → α → β) (b : β) :
    ∀ l : List α, (∀ a ∈ l, f b a = b) → l.foldl f b = b := by
  intro l
  induction l with
  | nil => intro _; rfl
  | cons a as ih =>
    intro h
    rw [List.foldl_cons, h a (List.mem_cons_self a as)]
    exact ih (fun x hx => h x (List.mem_cons_of_mem a hx))

/-- When all authors in the state are distinct, no candidate satisfies the
nearby-tweet condition (the only same-author row is the member itself,
excluded by the different-conversation conjunct), so `mergeRow` is the
identity. -/
theorem mergeRow_fixed (parse : String → Option Int) (convId : String)
    (snapLen : Nat) (row : TRow × ThreadInfo) (st : List (TRow × ThreadInfo))
    (hnd : (st.map (fun e => e.1.author_id)).Nodup)
    (hrow : row ∈ st) (hconv : row.2.conversation_id = convId) :
    mergeRow parse convId snapLen row st = st := by
  unfold mergeRow
  have h : ∀ e ∈ st, mergeCond parse convId row e = false := by
    intro e he
    unfold mergeCond
    by_cases ha : e.1.author_id = row.1.author_id
    · have : e = row := List.inj_on_of_nodup_map hnd he hrow ha
      subst this
      simp [hconv]
    · simp [ha]
  calc st.map (fun e => if mergeCond parse convId row e then
          (e.1, { e.2 with conversation_id := convId, thread_position := snapLen })
        else e)
      = st.map id := List.map_congr_left (fun e he => by rw [h e he]; rfl)
    _ = st := List.map_id st

/-- Under pairwise distinct authors one merge-pass iteration changes
nothing. -/
theorem pass2Step_fixed (parse : String → Option Int)
    (st : List (TRow × ThreadInfo)) (convId : String)
    (hnd : (st.map (fun e => e.1.author_id)).Nodup) :
    pass2Step parse st convId = st := by
  unfold pass2Step
  apply foldl_fixed
  intro row hrow
  have hmem := (List.mem_filter.mp hrow).1
  have hconv : row.2.conversation_id = convId := by
    have := (List.mem_filter.mp hrow).2
    simpa using this
  exact mergeRow_fixed parse convId _ row st hnd hmem hconv

/-- Under pairwise distinct authors the whole mention/similarity merge
pass is the identity. -/
theorem group_mention_fixed (parse : String → Option Int)
    (st : List (TRow × ThreadInfo))
    (hnd : (st.map (fun e => e.1.author_id)).Nodup) :
    group_mention_conversations parse st = st := by
  unfold group_mention_conversations
  apply foldl_fixed
  intro c _
  exact pass2Step_fixed parse st c hnd

/-- A root classification written by the reply-chain pass. -/
def isRootType (i : ThreadInfo) : Prop :=
  i.conversation_type = "customer_inquiry" ∨ i.conversation_type = "brand_initiated"

/-- A reply classification written by the reply-chain pass. -/
def isReplyType (i : ThreadInfo) : Prop :=
  i.conversation_type = "customer_followup" ∨ i.conversation_type = "brand_response"

/-- The per-entry position discipline the reply-chain pass establishes:
a root sits at position 0, and a reply sits one past the recorded position
of the first output entry carrying its conversation id and its parent's
tweet id. -/
def EntryOK (out : List (TRow × ThreadInfo)) (e : TRow × ThreadInfo) : Prop :=
  (isRootType e.2 → e.2.thread_position = 0) ∧
  (isReplyType e.2 → ∃ irt p, e.1.in_reply_to = some irt ∧
      out.find? (parentPred e.2.conversation_id irt) = some p ∧
      e.2.thread_position = p.2.thread_position + 1)

/-- Loop invariant of the reply-chain pass: every `reply_map` binding has
a matching assigned row, and every assigned row satisfies `EntryOK`. -/
def P1Inv (st : P1State) : Prop :=
  (∀ tid cid, st.replyMap.lookup tid = some cid →
    (st.out.find? (parentPred cid tid)).isSome) ∧
  (∀ e ∈ st.out, EntryOK st.out e)

/-- A successful `find?` survives appending on the right. -/
theorem find?_append_some {α : Type} {p : α → Bool} {l₁ : List α} (l₂ : List α) {a : α}
    (h : l₁.find? p = some a) : (l₁ ++ l₂).find? p = some a := by
  rw [List.find?_append, h]; rfl

/-- `EntryOK` is preserved when later rows are appended. -/
theorem entryOK_append {out : List (TRow × ThreadInfo)} {e : TRow × ThreadInfo}
    (h : EntryOK out e) (tail : List (TRow × ThreadInfo)) :
    EntryOK (out ++ tail) e := by
  refine ⟨h.1, ?_⟩
  intro hr
  obtain ⟨irt, p, h1, h2, h3⟩ := h.2 hr
  exact ⟨irt, p, h1, find?_append_some _ h2, h3⟩

/-- Core preservation: registering a row in `reply_map` and appending its
assignment keeps the invariant, provided the new entry itself is `EntryOK`
and carries the registered conversation id. -/
theorem consInv (st : P1State) (h : P1Inv st) (row : TRow) (convId : String)
    (info : ThreadInfo) (cnt : Nat)
    (hic : info.conversation_id = convId)
    (hnew : EntryOK (st.out ++ [(row, info)]) (row, info)) :
    P1Inv ⟨cnt, (row.tweet_id, convId) :: st.replyMap, st.out ++ [(row, info)]⟩ := by
  obtain ⟨hmap, hout⟩ := h
  constructor
  · intro tid cid hlk
    by_cases ht : tid = row.tweet_id
    · subst ht
      have hcc : convId = cid := by simpa [List.lookup] using hlk
      cases hfind : st.out.find? (parentPred cid row.tweet_id) with
      | some p =>
        have := find?_append_some [(row, info)] hfind
        simp [this]
      | none =>
        have : ((st.out ++ [(row, info)]).find? (parentPred cid row.tweet_id)) =
            [(row, info)].find? (parentPred cid row.tweet_id) := by
          rw [List.find?_append, hfind]; rfl
        simp only [this]
        simp [List.find?, parentPred, hic, hcc]
    · have hne : (tid == row.tweet_id) = false := beq_eq_false_iff_ne.mpr ht
      have hlk' : st.replyMap.lookup tid = some cid := by
        simpa [List.lookup, hne] using hlk
      obtain ⟨p, hp⟩ := Option.isSome_iff_exists.mp (hmap tid cid hlk')
      have := find?_append_some [(row, info)] hp
      simp [this]
  · intro e he
    rcases List.mem_append.mp he with he' | he'
    · exact entryOK_append (hout e he') _
    · have heq : e = (row, info) := List.mem_singleton.mp he'
      subst heq
      exact hnew

/-- The new-thread branch preserves the invariant: the fresh entry is a
root at position 0. -/
theorem p1newThread_preserves (ba : List String) (st : P1State) (row : TRow)
    (h : P1Inv st) : P1Inv (p1newThread ba st row) := by
  unfold p1newThread
  by_cases hb : is_brand_account ba row.author_id row.text = true
  · simp only [hb, if_true]
    refine consInv st h row _ _ _ rfl ?_
    constructor
    · intro _; rfl
    · intro hr
      rcases hr with hr | hr <;> simp [isReplyType] at hr
  · simp only [hb, if_false]
    refine consInv st h row _ _ _ rfl ?_
    constructor
    · intro _; rfl
    · intro hr
      rcases hr with hr | hr <;> simp [isReplyType] at hr

/-- The reply branch preserves the invariant: the parent lookup succeeds
(the `reply_map` binding guarantees an assigned row), and the fresh entry
sits one past the parent's recorded position. -/
theorem p1reply_preserves (ba : List String) (st : P1State) (row : TRow)
    (irt convId : String) (h : P1Inv st)
    (hlk : st.replyMap.lookup irt = some convId)
    (hirt : row.in_reply_to = some irt) :
    P1Inv (p1reply ba st row irt convId) := by
  obtain ⟨p, hp⟩ := Option.isSome_iff_exists.mp (h.1 irt convId hlk)
  unfold p1reply
  rw [hp]
  have hfindApp : ∀ tail, ((st.out ++ tail).find? (parentPred convId irt)) = some p :=
    fun tail => find?_append_some tail hp
  by_cases hb : is_brand_account ba row.author_id row.text = true
  · simp only [hb, if_true]
    refine consInv st h row _ _ _ rfl ?_
    constructor
    · intro hr
      rcases hr with hr | hr <;> simp [isRootType] at hr
    · intro _
      exact ⟨irt, p, hirt, hfindApp _, rfl⟩
  · simp only [hb, if_false]
    refine consInv st h row _ _ _ rfl ?_
    constructor
    · intro hr
      rcases hr with hr | hr <;> simp [isRootType] at hr
    · intro _
      exact ⟨irt, p, hirt, hfindApp _, rfl⟩

/-- Every reply-chain loop iteration preserves the invariant. -/
theorem p1step_preserves (ba : List String) (st : P1State) (row : TRow)
    (h : P1Inv st) : P1Inv (p1step ba st row) := by
  cases hirt : row.in_reply_to with
  | none =>
    have heq : p1step ba st row = p1newThread ba st row := by
      simp only [p1step, hirt]
    rw [heq]
    exact p1newThread_preserves ba st row h
  | some irt =>
    cases hlk : st.replyMap.lookup irt with
    | none =>
      have heq : p1step ba st row = p1newThread ba st row := by
        simp only [p1step, hirt, hlk]
      rw [heq]
      exact p1newThread_preserves ba st row h
    | some convId =>
      have heq : p1step ba st row = p1reply ba st row irt convId := by
        simp only [p1step, hirt, hlk]
      rw [heq]
      exact p1reply_preserves ba st row irt convId h hlk hirt

/-- The invariant holds after folding any row list. -/
theorem p1fold_inv (ba : List String) :
    ∀ (rows : List TRow) (st : P1State), P1Inv st →
      P1Inv (rows.foldl (p1step ba) st) := by
  intro rows
  induction rows with
  | nil => intro st h; exact h
  | cons r rs ih =>
    intro st h
    exact ih (p1step ba st r) (p1step_preserves ba st r h)

/-- After the reply-chain pass every entry satisfies the position
discipline. -/
theorem thread_pass1_entryOK (parse : String → Option Int) (ba : List String)
    (rows : List TRow) :
    ∀ e ∈ thread_pass1 parse ba rows, EntryOK (thread_pass1 parse ba rows) e := by
  have h := p1fold_inv ba (sortRows parse rows) ⟨0, [], []⟩
    ⟨by intro tid cid hlk; simp [List.lookup] at hlk, by intro e he; simp at he⟩
  exact h.2

/-- The reply-chain pass assigns each sorted row exactly once, in order. -/
theorem p1_out_map_fst (ba : List String) :
    ∀ (rows : List TRow) (st : P1State),
      (rows.foldl (p1step ba) st).out.map Prod.fst = st.out.map Prod.fst ++ rows := by
  intro rows
  induction rows with
  | nil => intro st; simp
  | cons r rs ih =>
    intro st
    rw [List.foldl_cons, ih]
    have h : (p1step ba st r).out.map Prod.fst = st.out.map Prod.fst ++ [r] := by
      cases hirt : r.in_reply_to with
      | none => simp [p1step, hirt, p1newThread]
      | some irt =>
        cases hlk : st.replyMap.lookup irt with
        | none => simp [p1step, hirt, hlk, p1newThread]
        | some convId => simp [p1step, hirt, hlk, p1reply]
    rw [h, List.append_assoc, List.singleton_append]

/-- The rows of the reply-chain pass output are the sorted input rows. -/
theorem thread_pass1_map_fst (parse : String → Option Int) (ba : List String)
    (rows : List TRow) :
    (thread_pass1 parse ba rows).map Prod.fst = sortRows parse rows := by
  unfold thread_pass1
  rw [p1_out_map_fst]
  simp

/-- Distinct input authors stay distinct in the pass-one output. -/
theorem thread_pass1_authors_nodup (parse : String → Option Int)
    (ba : List String) (rows : List TRow)
    (hnd : (rows.map (fun r => r.author_id)).Nodup) :
    ((thread_pass1 parse ba rows).map (fun e => e.1.author_id)).Nodup := by
  have h1 : (thread_pass1 parse ba rows).map (fun e => e.1.author_id) =
      (sortRows parse rows).map (fun r => r.author_id) := by
    rw [← thread_pass1_map_fst parse ba rows, List.map_map]
    rfl
  rw [h1]
  have hperm : List.Perm (sortRows parse rows) rows :=
    List.perm_insertionSort _ rows
  exact ((hperm.map (fun r => r.author_id)).nodup_iff).mpr hnd

/-- With pairwise distinct authors the merge pass changes nothing, so
threading is exactly the reply-chain pass. -/
theorem thread_conversations_eq_pass1 (parse : String → Option Int)
    (ba : List String) (rows : List TRow)
    (hnd : (rows.map (fun r => r.author_id)).Nodup) :
    thread_conversations parse ba rows = thread_pass1 parse ba rows := by
  unfold thread_conversations
  exact group_mention_fixed parse _ (thread_pass1_authors_nodup parse ba rows hnd)

/-- Parse oracle for the three-row counterexample batch: three distinct
parseable timestamps one minute apart. -/
def demoParse : String → Option Int := fun s =>
  if s = "T0" then some 0 else if s = "T1" then some 60
  else if s = "T2" then some 120 else none

/-- Root tweet of the counterexample batch. -/
def threadDemoA : TRow := ⟨"aaaaaaaaaa", "u1", "alpha one", "T0", none⟩

/-- First reply to `threadDemoA`. -/
def threadDemoB : TRow := ⟨"bbbbbbbbbb", "u2", "bravo two", "T1", some "aaaaaaaaaa"⟩

/-- Second reply to `threadDemoA`. -/
def threadDemoC : TRow := ⟨"cccccccccc", "u3", "charlie three", "T2", some "aaaaaaaaaa"⟩

/-- C4 counterexample: after both threading passes, the conversation
holding the root and its two replies has thread positions `[0, 1, 1]` —
both replies get parent position + 1 = 1 — which is not the multiset
`{0, 1, 2}`, so positions are neither gap-free nor duplicate-free. -/
theorem thread_positions_not_contiguous_cex :
    ((thread_conversations demoParse [] [threadDemoA, threadDemoB, threadDemoC]).filter
        (fun e => e.2.conversation_id == "conv_00000001")).map
      (fun e => e.2.thread_position) = [0, 1, 1] ∧
    ¬ List.Perm
      (((thread_conversations demoParse [] [threadDemoA, threadDemoB, threadDemoC]).filter
          (fun e => e.2.conversation_id == "conv_00000001")).map
        (fun e => e.2.thread_position)) [0, 1, 2] := by
  refine ⟨by decide, by decide⟩

/-- C4 amended: after both passes (stated here for batches with pairwise
distinct authors, where the merge pass provably changes nothing — the
counterexample's own regime), each conversation root sits at
thread position 0, and each reply sits at (recorded position of the first
member of its conversation carrying the parent tweet id) + 1; since two
replies to the same parent then share one position, the multiset
`{0, …, n−1}` contiguity claimed does NOT hold in general. -/
theorem thread_positions_root_zero_reply_parent_succ
    (parse : String → Option Int) (ba : List String) (rows : List TRow)
    (hnd : (rows.map (fun r => r.author_id)).Nodup) :
    ∀ e ∈ thread_conversations parse ba rows,
      (isRootType e.2 → e.2.thread_position = 0) ∧
      (isReplyType e.2 → ∃ irt p, e.1.in_reply_to = some irt ∧
        (thread_conversations parse ba rows).find?
          (parentPred e.2.conversation_id irt) = some p ∧
        e.2.thread_position = p.2.thread_position + 1) := by
  rw [thread_conversations_eq_pass1 parse ba rows hnd]
  exact fun e he => thread_pass1_entryOK parse ba rows e he

/-- Witness for the amended C4 at the counterexample batch. -/
theorem thread_positions_root_zero_reply_parent_succ_witness :
    (([threadDemoA, threadDemoB, threadDemoC].map (fun r => r.author_id)).Nodup) ∧
    (∀ e ∈ thread_conversations demoParse [] [threadDemoA, threadDemoB, threadDemoC],
      (isRootType e.2 → e.2.thread_position = 0) ∧
      (isReplyType e.2 → ∃ irt p, e.1.in_reply_to = some irt ∧
        (thread_conversations demoParse [] [threadDemoA, threadDemoB, threadDemoC]).find?
          (parentPred e.2.conversation_id irt) = some p ∧
        e.2.thread_position = p.2.thread_position + 1)) :=
  ⟨by decide,
   thread_positions_root_zero_reply_parent_succ demoParse []
     [threadDemoA, threadDemoB, threadDemoC] (by decide)⟩

/-- One row of the `ingestion_watermarks` table.  The stored
`last_processed_timestamp` (written as `created_at_parsed.isoformat()` and
read back through `pd.to_datetime`) is carried as its parsed instant; the
`iso`/`parse` oracles are inverse on the instants a run writes. -/
structure Watermark where
  last_processed_timestamp : Int
  last_processed_id : String
  records_processed : Nat
deriving DecidableEq, Inhabited

/-- The sink's state: the append-only `interactions` table and the
append-only `ingestion_watermarks` table. -/
structure SinkState where
  interactions : List NRecord
  watermarks : List Watermark
deriving DecidableEq, Inhabited

/-- `ClickHouseManager.get_last_watermark`: the most recently written
watermark row (`ORDER BY processing_timestamp DESC LIMIT 1` over
append-only inserts = the last appended row). -/
def get_last_watermark (st : SinkState) : Option Watermark :=
  st.watermarks.getLast?

/-- `ClickHouseManager.update_watermark`: append one watermark row. -/
def update_watermark (st : SinkState) (ts : Int) (lastId : String)
    (count : Nat) : SinkState :=
  { st with watermarks := st.watermarks ++ [⟨ts, lastId, count⟩] }

/-- `TwitterIngestionPipeline._filter_for_incremental_processing`:
with a stored watermark keep only rows whose parsed timestamp is strictly
greater (a NaT row compares False and is dropped); with no watermark keep
everything. -/
def filter_incremental (parse : String → Option Int) (st : SinkState)
    (df : List TRow) : List TRow :=
  match get_last_watermark st with
  | none => df
  | some w => df.filter (fun r =>
      match parse r.created_at with
      | some t => decide (w.last_processed_timestamp < t)
      | none => false)

/-- `df.iloc[i:i+batch_size]` chunking, fuel = list length. -/
def chunksGo (bs : Nat) : Nat → List TRow → List (List TRow)
  | _, [] => []
  | 0, _ => []
  | fuel + 1, l => l.take bs :: chunksGo bs fuel (l.drop bs)

/-- Split the frame into batches of `batch_size` rows
(`for i in range(0, len(df), batch_size)`). -/
def chunks (bs : Nat) (l : List TRow) : List (List TRow) :=
  if bs = 0 then [] else chunksGo bs l.length l

/-- The batch loop of `run_ingestion`: process each batch and insert its
valid records, accumulating `total_processed` from the inserted counts;
`fatal b = true` models `process_batch` raising on batch `b`, which aborts
the loop (the `except` branch of `run_ingestion`).  `insert_batch`'s own
error swallowing is the happy path here; quality-metrics rows go to a
separate table no claim reads.  Returns (sink state, total inserted,
fatal flag). -/
def runBatchesGo (parse : String → Option Int) (iso : Int → String)
    (md5 : String → String) (cfg : ValidatorConfig) (ba : List String)
    (fatal : List TRow → Bool) :
    SinkState → Nat → List (List TRow) → SinkState × Nat × Bool
  | st, total, [] => (st, total, false)
  | st, total, b :: bs =>
    if fatal b then (st, total, true)
    else
      let recs := process_batch parse iso md5 cfg ba b
      let res := insert_interactions_batch st.interactions recs
      runBatchesGo parse iso md5 cfg ba fatal
        { st with interactions := res.1 } (total + res.2.inserted) bs

/-- `TwitterIngestionPipeline.update_pipeline_watermark`: nothing on an
empty frame; otherwise sort by parsed timestamp, take the last row, and
append a watermark at its parsed timestamp and tweet id with the run's
total.  A NaT last row (any unparseable timestamp sorts last) makes the
write fail inside the swallowed `try`, so nothing is written. -/
def update_pipeline_watermark (parse : String → Option Int) (st : SinkState)
    (df : List TRow) (total : Nat) : SinkState :=
  if df.isEmpty then st
  else
    match (sortRows parse df).getLast? with
    | none => st
    | some lastRow =>
      match parse lastRow.created_at with
      | some t => update_watermark st t lastRow.tweet_id total
      | none => st

/-- Outcome summary of one `run_ingestion` call. -/
structure RunReport where
  status_success : Bool
  records_processed : Nat
deriving DecidableEq

/-- `TwitterIngestionPipeline.run_ingestion` on an already-loaded frame:
filter incrementally against the stored watermark, return success
immediately when nothing is new, else run the batch loop; a fatal batch
returns the error report with no watermark write, otherwise the watermark
is written once, after all batches. -/
def run_ingestion (parse : String → Option Int) (iso : Int → String)
    (md5 : String → String) (cfg : ValidatorConfig) (ba : List String)
    (bs : Nat) (fatal : List TRow → Bool) (st : SinkState)
    (dfRaw : List TRow) : SinkState × RunReport :=
  let df := filter_incremental parse st dfRaw
  if df.isEmpty then (st, ⟨true, 0⟩)
  else
    let r := runBatchesGo parse iso md5 cfg ba fatal st 0 (chunks bs df)
    if r.2.2 then (r.1, ⟨false, r.2.1⟩)
    else (update_pipeline_watermark parse r.1 df r.2.1, ⟨true, r.2.1⟩)

/-- The batch loop never touches the watermark table. -/
theorem runBatchesGo_watermarks (parse : String → Option Int) (iso : Int → String)
    (md5 : String → String) (cfg : ValidatorConfig) (ba : List String)
    (fatal : List TRow → Bool) :
    ∀ (bs : List (List TRow)) (st : SinkState) (total : Nat),
      (runBatchesGo parse iso md5 cfg ba fatal st total bs).1.watermarks =
        st.watermarks := by
  intro bs
  induction bs with
  | nil => intro st total; rfl
  | cons b rest ih =>
    intro st total
    by_cases hf : fatal b = true
    · simp [runBatchesGo, hf]
    · simp only [runBatchesGo, hf, if_false]
      exact ih _ _

/-- In a sorted list every element relates to the last element. -/
theorem sorted_le_getLast {α : Type} (R : α → α → Prop)
    (hrefl : ∀ a, R a a) :
    ∀ (l : List α), l.Sorted R → ∀ lastRow, l.getLast? = some lastRow →
      ∀ a ∈ l, R a lastRow := by
  intro l
  induction l with
  | nil => intro _ lastRow h; simp at h
  | cons x xs ih =>
    intro hs lastRow hlast a ha
    cases xs with
    | nil =>
      simp at hlast ha
      subst hlast
      subst ha
      exact hrefl _
    | cons y ys =>
      have hlast' : (y :: ys).getLast? = some lastRow := by simpa using hlast
      rcases List.mem_cons.mp ha with rfl | ha'
      · have hmem : lastRow ∈ y :: ys := List.mem_of_getLast?_eq_some hlast'
        exact (List.sorted_cons.mp hs).1 lastRow hmem
      · exact ih (List.sorted_cons.mp hs).2 lastRow hlast' a ha'

/-- The last row of the timestamp sort carries the maximal sort key. -/
theorem sortRows_le_getLast (parse : String → Option Int) (df : List TRow)
    (lastRow : TRow) (hlast : (sortRows parse df).getLast? = some lastRow) :
    ∀ r ∈ df, tsOf parse r ≤ tsOf parse lastRow := by
  haveI hTot : IsTotal TRow (fun a b => tsOf parse a ≤ tsOf parse b) :=
    ⟨fun a b => le_total _ _⟩
  haveI hTrans : IsTrans TRow (fun a b => tsOf parse a ≤ tsOf parse b) :=
    ⟨fun _ _ _ hab hbc => le_trans hab hbc⟩
  have hsorted : (sortRows parse df).Sorted (fun a b => tsOf parse a ≤ tsOf parse b) :=
    List.sorted_insertionSort _ df
  intro r hr
  have hr' : r ∈ sortRows parse df :=
    ((List.perm_insertionSort _ df).mem_iff).mpr hr
  exact sorted_le_getLast (fun a b => tsOf parse a ≤ tsOf parse b)
    (fun a => le_refl (tsOf parse a)) _ hsorted lastRow hlast r hr'

/-- C2 amended: in every run the watermark table either is unchanged or
gains exactly one row (written only after all batches — the model writes
it at the single post-loop point the code does); a run ending fatally
never writes it; and a written watermark's timestamp is the MAXIMUM parsed
timestamp over every record read this run — whether or not the record was
inserted — hence ≥ (not ≤) the maximum committed timestamp, and strictly
greater than the previous watermark, so the watermark is monotonically
increasing across successful runs and unchanged after a fatal one. -/
theorem run_watermark_once_bounded_monotone (parse : String → Option Int)
    (iso : Int → String) (md5 : String → String) (cfg : ValidatorConfig)
    (ba : List String) (bs : Nat) (fatal : List TRow → Bool)
    (st : SinkState) (dfRaw : List TRow) :
    ((run_ingestion parse iso md5 cfg ba bs fatal st dfRaw).1.watermarks = st.watermarks ∨
     ∃ w, (run_ingestion parse iso md5 cfg ba bs fatal st dfRaw).1.watermarks =
       st.watermarks ++ [w]) ∧
    ((run_ingestion parse iso md5 cfg ba bs fatal st dfRaw).2.status_success = false →
      (run_ingestion parse iso md5 cfg ba bs fatal st dfRaw).1.watermarks = st.watermarks) ∧
    (∀ w, (run_ingestion parse iso md5 cfg ba bs fatal st dfRaw).1.watermarks =
        st.watermarks ++ [w] →
      (∀ r ∈ filter_incremental parse st dfRaw, ∀ t, parse r.created_at = some t →
        t ≤ w.last_processed_timestamp) ∧
      (∀ w₀, st.watermarks.getLast? = some w₀ →
        w₀.last_processed_timestamp < w.last_processed_timestamp)) := by
  have happend_absurd : ∀ w : Watermark, st.watermarks = st.watermarks ++ [w] → False := by
    intro w hw
    have := congrArg List.length hw
    simp at this
  by_cases hempty : (filter_incremental parse st dfRaw).isEmpty = true
  · have hrun : run_ingestion parse iso md5 cfg ba bs fatal st dfRaw = (st, ⟨true, 0⟩) := by
      simp only [run_ingestion, hempty, if_true]
    rw [hrun]
    refine ⟨Or.inl rfl, by intro h; simp at h, ?_⟩
    intro w hw
    exact absurd hw (fun hw => happend_absurd w hw)
  · have hrb := runBatchesGo_watermarks parse iso md5 cfg ba fatal
      (chunks bs (filter_incremental parse st dfRaw)) st 0
    by_cases hfatal : (runBatchesGo parse iso md5 cfg ba fatal st 0
        (chunks bs (filter_incremental parse st dfRaw))).2.2 = true
    · have hrun : run_ingestion parse iso md5 cfg ba bs fatal st dfRaw =
          ((runBatchesGo parse iso md5 cfg ba fatal st 0
            (chunks bs (filter_incremental parse st dfRaw))).1,
           ⟨false, (runBatchesGo parse iso md5 cfg ba fatal st 0
            (chunks bs (filter_incremental parse st dfRaw))).2.1⟩) := by
        simp only [run_ingestion, hempty, if_false, hfatal, if_true]
        rfl
      rw [hrun]
      refine ⟨Or.inl hrb, fun _ => hrb, ?_⟩
      intro w hw
      rw [hrb] at hw
      exact absurd hw (fun hw => happend_absurd w hw)
    · have hrun : run_ingestion parse iso md5 cfg ba bs fatal st dfRaw =
          (update_pipeline_watermark parse
            (runBatchesGo parse iso md5 cfg ba fatal st 0
              (chunks bs (filter_incremental parse st dfRaw))).1
            (filter_incremental parse st dfRaw)
            (runBatchesGo parse iso md5 cfg ba fatal st 0
              (chunks bs (filter_incremental parse st dfRaw))).2.1,
           ⟨true, (runBatchesGo parse iso md5 cfg ba fatal st 0
              (chunks bs (filter_incremental parse st dfRaw))).2.1⟩) := by
        simp only [run_ingestion, hempty, if_false, hfatal]
        rfl
      rw [hrun]
      cases hglast : (sortRows parse (filter_incremental parse st dfRaw)).getLast? with
      | none =>
        have hupd : update_pipeline_watermark parse
            (runBatchesGo parse iso md5 cfg ba fatal st 0
              (chunks bs (filter_incremental parse st dfRaw))).1
            (filter_incremental parse st dfRaw)
            (runBatchesGo parse iso md5 cfg ba fatal st 0
              (chunks bs (filter_incremental parse st dfRaw))).2.1 =
            (runBatchesGo parse iso md5 cfg ba fatal st 0
              (chunks bs (filter_incremental parse st dfRaw))).1 := by
          simp only [update_pipeline_watermark, hempty, if_false, hglast]
          rfl
        rw [hupd]
        refine ⟨Or.inl hrb, fun h => by simp at h, ?_⟩
        intro w hw
        rw [hrb] at hw
        exact absurd hw (fun hw => happend_absurd w hw)
      | some lastRow =>
        cases hpl : parse lastRow.created_at with
        | none =>
          have hupd : update_pipeline_watermark parse
              (runBatchesGo parse iso md5 cfg ba fatal st 0
                (chunks bs (filter_incremental parse st dfRaw))).1
              (filter_incremental parse st dfRaw)
              (runBatchesGo parse iso md5 cfg ba fatal st 0
                (chunks bs (filter_incremental parse st dfRaw))).2.1 =
              (runBatchesGo parse iso md5 cfg ba fatal st 0
                (chunks bs (filter_incremental parse st dfRaw))).1 := by
            simp only [update_pipeline_watermark, hempty, if_false, hglast, hpl]
            rfl
          rw [hupd]
          refine ⟨Or.inl hrb, fun h => by simp at h, ?_⟩
          intro w hw
          rw [hrb] at hw
          exact absurd hw (fun hw => happend_absurd w hw)
        | some t =>
          have hupd : update_pipeline_watermark parse
              (runBatchesGo parse iso md5 cfg ba fatal st 0
                (chunks bs (filter_incremental parse st dfRaw))).1
              (filter_incremental parse st dfRaw)
              (runBatchesGo parse iso md5 cfg ba fatal st 0
                (chunks bs (filter_incremental parse st dfRaw))).2.1 =
              { (runBatchesGo parse iso md5 cfg ba fatal st 0
                  (chunks bs (filter_incremental parse st dfRaw))).1 with
                watermarks := (runBatchesGo parse iso md5 cfg ba fatal st 0
                  (chunks bs (filter_incremental parse st dfRaw))).1.watermarks ++
                  [⟨t, lastRow.tweet_id,
                    (runBatchesGo parse iso md5 cfg ba fatal st 0
                      (chunks bs (filter_incremental parse st dfRaw))).2.1⟩] } := by
            simp only [update_pipeline_watermark, hempty, if_false, hglast, hpl,
              update_watermark]
            rfl
          rw [hupd]
          simp only [hrb]
          refine ⟨Or.inr ⟨_, rfl⟩, fun h => by simp at h, ?_⟩
          intro w hw
          have hw' : (⟨t, lastRow.tweet_id,
              (runBatchesGo parse iso md5 cfg ba fatal st 0
                (chunks bs (filter_incremental parse st dfRaw))).2.1⟩ : Watermark) = w := by
            have := List.append_cancel_left hw
            simpa using this
          constructor
          · intro r hr t' hpt'
            have hle : tsOf parse r ≤ tsOf parse lastRow :=
              sortRows_le_getLast parse _ lastRow hglast r hr
            rw [tsOf, tsOf, hpt', hpl] at hle
            have : t' ≤ t := WithTop.coe_le_coe.mp hle
            rw [← hw']
            exact this
          · intro w₀ hw₀
            have hdf : filter_incremental parse st dfRaw =
                dfRaw.filter (fun r =>
                  match parse r.created_at with
                  | some t => decide (w₀.last_processed_timestamp < t)
                  | none => false) := by
              simp only [filter_incremental, get_last_watermark, hw₀]
            have hlmem : lastRow ∈ filter_incremental parse st dfRaw := by
              have : lastRow ∈ sortRows parse (filter_incremental parse st dfRaw) :=
                List.mem_of_getLast?_eq_some hglast
              exact ((List.perm_insertionSort _ _).mem_iff).mp this
            rw [hdf] at hlmem
            have hpred := (List.mem_filter.mp hlmem).2
            rw [hpl] at hpred
            simp at hpred
            rw [← hw']
            exact hpred

/-- Format oracle inverse to `demoParse` on the demo instants. -/
def demoIso : Int → String := fun t =>
  if t = 0 then "T0" else if t = 60 then "T1" else if t = 120 then "T2" else "TX"

/-- A fully valid record at the earliest timestamp. -/
def wmRow1 : TRow := ⟨"1234567890", "alice", "Hello there my friend", "T0", none⟩

/-- A record at the latest timestamp whose text is too short, so
validation rejects it and it is never inserted. -/
def wmRow2 : TRow := ⟨"1234567892", "dave8", "hi", "T1", none⟩

/-- C2 counterexample: a successful run over `[wmRow1, wmRow2]` commits
only `wmRow1` (parsed timestamp 0) — `wmRow2` fails validation — yet the
watermark advances to `wmRow2`'s timestamp 60, which is NOT ≤ the maximum
timestamp actually committed: the watermark is taken from all records
read, not from the records inserted. -/
theorem run_watermark_beyond_committed_cex :
    (run_ingestion demoParse demoIso (fun s => s) {} [] 10 (fun _ => false)
      ⟨[], []⟩ [wmRow1, wmRow2]).2.status_success = true ∧
    (run_ingestion demoParse demoIso (fun s => s) {} [] 10 (fun _ => false)
      ⟨[], []⟩ [wmRow1, wmRow2]).1.watermarks = [⟨60, "1234567892", 1⟩] ∧
    (run_ingestion demoParse demoIso (fun s => s) {} [] 10 (fun _ => false)
      ⟨[], []⟩ [wmRow1, wmRow2]).1.interactions.map (fun r => r.created_at) = ["T0"] ∧
    demoParse "T0" = some 0 ∧
    ¬ ((60 : ℤ) ≤ 0) := by
  refine ⟨by decide, by decide, by decide, by decide, by decide⟩

/-- Witness for the amended C2: the concrete run writes exactly one
watermark row, and the clause instantiated at the committed record yields
its timestamp bound 0 ≤ 60. -/
theorem run_watermark_once_bounded_monotone_witness :
    ((run_ingestion demoParse demoIso (fun s => s) {} [] 10 (fun _ => false)
        ⟨[], []⟩ [wmRow1, wmRow2]).1.watermarks =
      ([] : List Watermark) ++ [⟨60, "1234567892", 1⟩]) ∧
    (0 : ℤ) ≤ (60 : ℤ) :=
  ⟨by decide,
   by
     have h := (run_watermark_once_bounded_monotone demoParse demoIso (fun s => s)
       {} [] 10 (fun _ => false) ⟨[], []⟩ [wmRow1, wmRow2]).2.2
       ⟨60, "1234567892", 1⟩ (by decide)
     exact h.1 wmRow1 (by decide) 0 (by decide)⟩
